import Mathlib

/-!
Verification of the redis-rate-rs distributed rate limiter core.

The embedding models, over exact rational arithmetic (in place of the Lua /
Rust double-precision floats) and explicit state passing:

* `Limit.new` (src/lib.rs, construction-time validation; panic is `none`);
* the GCRA quota script `ALLOW_N_SCRIPT` (src/scripts.rs) as a pure function
  of the stored state, the script arguments and the store clock, returning
  the four-tuple result and the new stored state (value and TTL);
* the decode step of `Limiter::allow_n` (redis value to `LimitResult`;
  a failed conversion, e.g. a negative `remaining` into `usize`, is `none`);
* the local-acceleration fast path of `Limiter::allow_n` and the cache
  refresh after a round trip, with the `try_read` / `try_write` lock
  outcomes passed in explicitly;
* `Limiter::reset` as the list of store commands it issues, and the
  `start_event_sync` listener loop over an explicit list of received events;
* a single-key system trace semantics (`stepOp` / `runOps`) used for the
  cache-conservativeness claims.
-/

namespace RedisRate

/-- `Limit` (src/lib.rs): rate, burst, period in seconds. -/
structure Limit where
  rate : Nat
  burst : Nat
  period_seconds : Nat
deriving Repr, DecidableEq

/-- `Limit::new` (src/lib.rs lines 35-51). The Rust code panics on an
invalid configuration; the panic is modelled as `none`. -/
def Limit.new (rate burst period_seconds : Nat) : Option Limit :=
  if period_seconds = 0 then none
  else if rate = 0 then none
  else if rate > burst then none
  else some ⟨rate, burst, period_seconds⟩

/-- `emission_interval` as computed in `Limiter::allow_n`
(src/lib.rs line 168): `period_seconds / rate`. -/
def emissionInterval (l : Limit) : ℚ := (l.period_seconds : ℚ) / (l.rate : ℚ)

/-- `brust_offset` as computed in `Limiter::allow_n`
(src/lib.rs line 170): `burst * emission_interval`. -/
def burstOffset (l : Limit) : ℚ := (l.burst : ℚ) * emissionInterval l

/-- `tat_increment` as computed in `Limiter::allow_n`
(src/lib.rs line 169): `emission_interval * n`. -/
def tatIncrement (l : Limit) (n : Nat) : ℚ := emissionInterval l * (n : ℚ)

/-- Store-resident state for one key: the stored `tat` scalar and the TTL
(seconds) set by the script's `SET ... EX` call. -/
structure StoredState where
  tat : ℚ
  ttl : ℤ
deriving Repr, DecidableEq

/-- The raw four-tuple `{limited, remaining, retry_after, reset_after}`
returned by the quota script (src/scripts.rs line 55). -/
structure ScriptResult where
  limited : Bool
  remaining : ℤ
  retry_after : ℚ
  reset_after : ℚ
deriving Repr, DecidableEq

/-- `tat` as read by the script (src/scripts.rs lines 28-33): the stored
value, or `now` when the key is absent. -/
def storedTat (stored : Option StoredState) (now : ℚ) : ℚ :=
  match stored with
  | none => now
  | some s => s.tat

/-- The quota script `ALLOW_N_SCRIPT` (src/scripts.rs lines 24-55) as a pure
function of the stored state, the arguments and the store clock `now`.
Returns the result tuple and the stored state after the call. -/
def allowNScript (stored : Option StoredState)
    (emission_interval burst_offset tat_increment : ℚ) (now : ℚ) :
    ScriptResult × Option StoredState :=
  let tat := storedTat stored now
  let new_tat := max tat now + tat_increment
  let allow_at := new_tat - burst_offset
  if allow_at > now then
    (⟨true, ⌊(now - tat + burst_offset) / emission_interval⌋,
      allow_at - now, tat - now⟩, stored)
  else
    (⟨false, ⌊(now - allow_at) / emission_interval⌋,
      -1, new_tat - now⟩,
     some ⟨new_tat, ⌈new_tat - now⌉⟩)

/-- `LimitResult` (src/lib.rs lines 70-80). Durations are rational seconds;
`remaining` is a `usize`, hence `Nat`. -/
structure LimitResult where
  limited : Bool
  remaining : Nat
  retry_after : Option ℚ
  reset_after : ℚ
deriving Repr, DecidableEq

/-- Decode of the script's `retry_after` field (src/lib.rs lines 202-206):
a negative value means "not limited" and becomes `None`. -/
def decodeRetryAfter (secs : ℚ) : Option ℚ :=
  if secs < 0 then none else some secs

/-- Decode of the script result into a `LimitResult`
(src/lib.rs lines 200-207).  The `from_redis_value` conversion of
`remaining` into `usize` fails on a negative value, and
`Duration::from_secs_f64` panics on a negative `reset_after`; both failure
modes are modelled as `none`. -/
def decodeResult (r : ScriptResult) : Option LimitResult :=
  if r.remaining < 0 then none
  else if r.reset_after < 0 then none
  else some ⟨r.limited, r.remaining.toNat, decodeRetryAfter r.retry_after,
             r.reset_after⟩

/-- The local-acceleration fast path of `Limiter::allow_n`
(src/lib.rs lines 174-189), given the cache entry for the effective key
(an expiry instant) and the local clock `now`.  `Instant::duration_since`
saturates at zero, hence the `max _ 0`.  The `as usize` cast saturates a
negative float at zero, hence `Int.toNat`.  Returns `some` exactly when the
call is answered locally. -/
def localCheck (cacheEntry : Option ℚ) (now : ℚ)
    (emission_interval burst_offset tat_increment : ℚ) : Option LimitResult :=
  match cacheEntry with
  | none => none
  | some reset_time =>
    let reset_after := max (reset_time - now) 0
    let diff := reset_after + tat_increment - burst_offset
    if diff > 0 then
      some ⟨true,
            (⌊(burst_offset - reset_after) / emission_interval⌋).toNat,
            some |diff|, reset_after⟩
    else none

/-- Lock outcomes and clock readings of one `allow_n` call:
`readLockOk` / `writeLockOk` are the `try_read` / `try_write` outcomes,
`now` is the local `Instant::now()` captured at the start of the call
(src/lib.rs line 173) and `storeNow` the store clock inside the script. -/
structure CallEnv where
  readLockOk : Bool
  writeLockOk : Bool
  now : ℚ
  storeNow : ℚ
deriving Repr, DecidableEq

/-- `Limiter::allow_n` (src/lib.rs lines 160-220) for one effective key,
with the cache entry and the store state passed explicitly.  Returns the
call result (`none` for a decode failure, i.e. a Rust `Err`/panic after the
round trip), the cache entry after the call and the store state after the
call. -/
def allow_n (cache : Option ℚ) (store : Option StoredState)
    (limit : Limit) (n : Nat) (env : CallEnv) :
    Option LimitResult × Option ℚ × Option StoredState :=
  let ei := emissionInterval limit
  let bo := burstOffset limit
  let ti := tatIncrement limit n
  match (if env.readLockOk then localCheck cache env.now ei bo ti else none) with
  | some r => (some r, cache, store)
  | none =>
    let res := allowNScript store ei bo ti env.storeNow
    match decodeResult res.1 with
    | none => (none, cache, res.2)
    | some r =>
      let cache' := if env.writeLockOk then some (env.now + r.reset_after) else cache
      (some r, cache', res.2)

/-- `Limiter::allow` (src/lib.rs lines 155-157): `allow_n` with cost 1. -/
def allow (cache : Option ℚ) (store : Option StoredState)
    (limit : Limit) (env : CallEnv) :
    Option LimitResult × Option ℚ × Option StoredState :=
  allow_n cache store limit 1 env

/-- `LIMITER_RESET_EVENT_PREFIX` (src/lib.rs line 22).  Strings are
modelled as character lists. -/
def resetTag : List Char := "reset:".toList

/-- The effective store key: the limiter's key namespace followed by the
caller's key (`format!` in src/lib.rs lines 138, 166). -/
def effectiveKey (keyPre key : List Char) : List Char := keyPre ++ key

/-- The process-local `RESET_TIME_STORE` map (src/lib.rs line 14), as an
association list from effective key to cached expiry instant. -/
abbrev CacheMap : Type := List (List Char × ℚ)

/-- A store (redis) error, identified by its message. -/
structure RedisErr where
  errMsg : List Char
deriving Repr, DecidableEq

/-- Commands `Limiter::reset` issues to the store. -/
inductive StoreCmd where
  | del (key : List Char)
  | publish (channel msg : List Char)
deriving Repr, DecidableEq

/-- `Limiter::reset` (src/lib.rs lines 137-152): the store commands it
issues, in order: delete the effective key, then publish the reset event
on the configured channel. -/
def limiterReset (keyPre eventChannel key : List Char) : List StoreCmd :=
  let k := effectiveKey keyPre key
  [StoreCmd.del k, StoreCmd.publish eventChannel (resetTag ++ k)]

/-- The body of the listener loop for one received message
(src/lib.rs lines 127-132): if the payload carries the reset tag, drop the
tag and remove that key from the cache, provided the write lock is
immediately available; otherwise leave the cache unchanged. -/
def processMessage (cache : CacheMap) (msg : List Char)
    (writeLockOk : Bool) : CacheMap :=
  if msg.take resetTag.length = resetTag then
    let payload := msg.drop resetTag.length
    if writeLockOk then
      List.filter (fun kv => kv.1 ≠ payload) cache
    else cache
  else cache

/-- One iteration's input in the listener receive loop: a received payload
(with the `try_write` outcome used while processing it), or a
`get_message` / `get_payload` failure. -/
inductive RecvEvent where
  | message (payload : List Char) (writeLockOk : Bool)
  | failure (e : RedisErr)
deriving Repr, DecidableEq

/-- Observable outcome of `start_event_sync` on a finite prefix of its
event stream.  The Rust function's body is an unconditional loop, so it
can never return `Ok`: it either returns an error (`?` on the connection
or on a receive), panics (the `unwrap` on subscribe), or is still running
after consuming the whole prefix. -/
inductive SyncOutcome where
  | errored (e : RedisErr) (cache : CacheMap)
  | panicked (e : RedisErr)
  | running (cache : CacheMap)
deriving Repr, DecidableEq

/-- The receive loop of `start_event_sync` (src/lib.rs lines 125-133) over
a finite prefix of events. -/
def eventLoop (cache : CacheMap) : List RecvEvent → SyncOutcome
  | [] => SyncOutcome.running cache
  | RecvEvent.failure e :: _ => SyncOutcome.errored e cache
  | RecvEvent.message p lk :: rest => eventLoop (processMessage cache p lk) rest

/-- `Limiter::start_event_sync` (src/lib.rs lines 121-134):
`get_connection()?` may return the error; a subscribe failure hits
`.unwrap()` and panics; then the receive loop runs. -/
def startEventSync (connect : Except RedisErr Unit)
    (subscribe : Except RedisErr Unit) (events : List RecvEvent)
    (cache : CacheMap) : SyncOutcome :=
  match connect with
  | Except.error e => SyncOutcome.errored e cache
  | Except.ok _ =>
    match subscribe with
    | Except.error e => SyncOutcome.panicked e
    | Except.ok _ => eventLoop cache events

/-- One operation of a single-key system trace: an `allow_n` call, or a
`reset` whose invalidation broadcast either has already been processed by
the local listener with the write lock available (`evicted = true`) or has
not (yet) evicted the local entry (`evicted = false`). -/
inductive Op where
  | allowCall (limit : Limit) (n : Nat) (env : CallEnv)
  | resetCall (evicted : Bool)
deriving Repr, DecidableEq

/-- Single-key system state: the local cache entry for the key and the
store-resident state for the key. -/
structure Sys where
  cache : Option ℚ
  store : Option StoredState
deriving Repr, DecidableEq

/-- Effect of one operation on the single-key system state:
`allow_n` updates cache and store as modelled by `allow_n`; `reset`
deletes the store key and evicts the local entry only if the broadcast has
been processed. -/
def stepOp (st : Sys) (op : Op) : Sys :=
  match op with
  | Op.allowCall limit n env =>
    let r := allow_n st.cache st.store limit n env
    ⟨r.2.1, r.2.2⟩
  | Op.resetCall evicted =>
    ⟨if evicted then none else st.cache, none⟩

/-- Run a trace from the empty initial state (no local cache entry and no
store key). -/
def runOps (ops : List Op) : Sys := ops.foldl stepOp ⟨none, none⟩

/-- A reset-free trace under a single consistent clock, starting no
earlier than `t`: every operation is an `allow_n` call whose local and
store clocks agree, times nondecreasing. -/
def ResetFreeChrono : ℚ → List Op → Prop
  | _, [] => True
  | t, Op.allowCall _ _ env :: rest =>
      env.now = env.storeNow ∧ t ≤ env.now ∧ ResetFreeChrono env.now rest
  | _, Op.resetCall _ :: _ => False

/-- The time of the last `allow_n` call of a trace (or `t` when there is
none). -/
def endTime (t : ℚ) : List Op → ℚ
  | [] => t
  | Op.allowCall _ _ env :: rest => endTime env.now rest
  | Op.resetCall _ :: rest => endTime t rest

/-- The conservativeness invariant at time `t`: any cached expiry instant
is at most the store's tat, or at most `t` when the store key is absent. -/
def CacheBound (t : ℚ) (st : Sys) : Prop :=
  ∀ e, st.cache = some e →
    (∀ s, st.store = some s → e ≤ s.tat) ∧ (st.store = none → e ≤ t)

end RedisRate

namespace RedisRate

/-- Claim C9: `Limit::new(rate, burst, period_seconds)` fails fatally
(modelled as `none`) if and only if `period_seconds = 0` or `rate = 0` or
`rate > burst`; otherwise it returns a `Limit` holding exactly those three
values. -/
theorem limit_new_spec (rate burst period_seconds : Nat) :
    (Limit.new rate burst period_seconds = none ↔
      period_seconds = 0 ∨ rate = 0 ∨ rate > burst) ∧
    (period_seconds ≠ 0 → rate ≠ 0 → rate ≤ burst →
      Limit.new rate burst period_seconds = some ⟨rate, burst, period_seconds⟩) := by
  unfold Limit.new
  constructor
  · split_ifs <;> simp_all
  · intro h1 h2 h3
    split_ifs <;> simp_all
    omega

/-- Witness for `limit_new_spec` at rate 5, burst 5, period 20. -/
theorem limit_new_spec_witness :
    Limit.new 5 5 20 = some ⟨5, 5, 20⟩ :=
  (limit_new_spec 5 5 20).2 (by decide) (by decide) (by decide)

/-- Claim C2: the allowed branch of the quota script.  If
`new_tat - burst_offset ≤ now` (with `tat` the stored value or `now` when
absent, and `new_tat = max tat now + emission_interval * n`), the script
returns `limited = false`,
`remaining = ⌊(now - (new_tat - burst_offset)) / emission_interval⌋`,
`retry_after = -1` (which the limiter decodes to `none`),
`reset_after = new_tat - now`, and writes `new_tat` with an expiry of
`⌈reset_after⌉` seconds.  (Arithmetic is modelled exactly over `ℚ` in place
of the script's double-precision floats.) -/
theorem quota_script_allowed (stored : Option StoredState) (ei bo : ℚ) (n : Nat)
    (now tat new_tat : ℚ) (htat : tat = storedTat stored now)
    (hnt : new_tat = max tat now + ei * n) (h : new_tat - bo ≤ now) :
    allowNScript stored ei bo (ei * n) now =
      (⟨false, ⌊(now - (new_tat - bo)) / ei⌋, -1, new_tat - now⟩,
        some ⟨new_tat, ⌈new_tat - now⌉⟩) ∧
    decodeRetryAfter (allowNScript stored ei bo (ei * n) now).1.retry_after
      = none := by
  subst htat hnt
  have hcond : ¬ (max (storedTat stored now) now + ei * n - bo > now) :=
    not_lt.mpr h
  constructor
  · simp only [allowNScript]
    rw [if_neg hcond]
  · simp only [allowNScript]
    rw [if_neg hcond]
    norm_num [decodeRetryAfter]

/-- Witness for `quota_script_allowed`: fresh key, emission interval 4,
burst offset 20, cost 1, at store time 0. -/
theorem quota_script_allowed_witness :
    allowNScript none 4 20 (4 * ((1:Nat):ℚ)) 0 =
      (⟨false, ⌊((0:ℚ) - ((4:ℚ) - 20)) / 4⌋, -1, (4:ℚ) - 0⟩,
        some ⟨(4:ℚ), ⌈(4:ℚ) - 0⌉⟩) ∧
    decodeRetryAfter
      (allowNScript none 4 20 (4 * ((1:Nat):ℚ)) 0).1.retry_after = none :=
  quota_script_allowed none 4 20 1 0 0 4 rfl (by norm_num [storedTat])
    (by norm_num)

/-- Claim C3: the denied branch of the quota script leaves the stored state
(value and TTL) exactly unchanged, and returns `limited = true`,
`remaining = ⌊(now - tat + burst_offset) / emission_interval⌋`,
`retry_after = (new_tat - burst_offset) - now`, `reset_after = tat - now`. -/
theorem quota_script_denied (stored : Option StoredState) (ei bo ti : ℚ)
    (now tat new_tat : ℚ) (htat : tat = storedTat stored now)
    (hnt : new_tat = max tat now + ti) (h : new_tat - bo > now) :
    allowNScript stored ei bo ti now =
      (⟨true, ⌊(now - tat + bo) / ei⌋, (new_tat - bo) - now, tat - now⟩,
        stored) := by
  subst htat hnt
  simp only [allowNScript]
  rw [if_pos h]

/-- Witness for `quota_script_denied`: stored tat 16, emission interval 4,
burst offset 20, tat increment 12, at store time 0. -/
theorem quota_script_denied_witness :
    allowNScript (some ⟨16, 16⟩) 4 20 12 0 =
      (⟨true, ⌊((0:ℚ) - 16 + 20) / 4⌋, ((28:ℚ) - 20) - 0, (16:ℚ) - 0⟩,
        some ⟨16, 16⟩) :=
  quota_script_denied (some ⟨16, 16⟩) 4 20 12 0 16 28 rfl (by norm_num)
    (by norm_num)

/-- Claim C10: `allow_n` performs no validation of `n` and with `n = 0` the
call reaches the script with a zero tat increment; the script then returns
`limited = false` whenever `max tat now ≤ now + burst_offset` (always so
for an absent key), rewrites the key with `new_tat = max tat now` and a
refreshed TTL of `⌈reset_after⌉` seconds, consuming no permits. -/
theorem quota_script_zero_cost (limit : Limit) (stored : Option StoredState)
    (now : ℚ) :
    tatIncrement limit 0 = 0 ∧
    (max (storedTat stored now) now ≤ now + burstOffset limit →
      allowNScript stored (emissionInterval limit) (burstOffset limit)
          (tatIncrement limit 0) now =
        (⟨false,
          ⌊(now - (max (storedTat stored now) now - burstOffset limit)) /
             emissionInterval limit⌋,
          -1, max (storedTat stored now) now - now⟩,
         some ⟨max (storedTat stored now) now,
               ⌈max (storedTat stored now) now - now⌉⟩)) ∧
    (stored = none →
      (allowNScript stored (emissionInterval limit) (burstOffset limit)
          (tatIncrement limit 0) now).1.limited = false) ∧
    (allow_n none stored limit 0 ⟨true, true, now, now⟩).2.2 =
      (allowNScript stored (emissionInterval limit) (burstOffset limit)
          (tatIncrement limit 0) now).2 := by
  have hti : tatIncrement limit 0 = 0 := by simp [tatIncrement]
  have hbo : (0:ℚ) ≤ burstOffset limit := by
    unfold burstOffset emissionInterval
    positivity
  refine ⟨hti, ?_, ?_, ?_⟩
  · intro hle
    have hcond :
        ¬ (max (storedTat stored now) now + tatIncrement limit 0
            - burstOffset limit > now) := by
      rw [hti]
      simp only [add_zero]
      linarith
    simp only [allowNScript]
    rw [if_neg hcond, hti]
    simp only [add_zero]
  · intro hnone
    subst hnone
    have hcond :
        ¬ (max (storedTat none now) now + tatIncrement limit 0
            - burstOffset limit > now) := by
      rw [hti]
      simp only [storedTat, max_self, add_zero]
      linarith
    simp only [allowNScript]
    rw [if_neg hcond]
  · simp only [allow_n, localCheck]
    cases hd : decodeResult
        (allowNScript stored (emissionInterval limit) (burstOffset limit)
          (tatIncrement limit 0) now).1 <;>
      simp [hd]

/-- Witness for `quota_script_zero_cost`: fresh key, limit (1, 1, 1),
store time 0. -/
theorem quota_script_zero_cost_witness :
    (allowNScript none (emissionInterval ⟨1, 1, 1⟩) (burstOffset ⟨1, 1, 1⟩)
        (tatIncrement ⟨1, 1, 1⟩ 0) 0).1.limited = false :=
  (quota_script_zero_cost ⟨1, 1, 1⟩ none 0).2.2.1 rfl

/-- A result synthesized by the local fast path always has `limited = true`
and a present `retry_after`. -/
theorem localCheck_some (cache : Option ℚ) (now ei bo ti : ℚ)
    (r : LimitResult) (h : localCheck cache now ei bo ti = some r) :
    r.limited = true ∧ r.retry_after.isSome = true := by
  cases cache with
  | none => simp [localCheck] at h
  | some reset_time =>
    simp only [localCheck] at h
    split at h
    · cases h
      exact ⟨rfl, rfl⟩
    · cases h

/-- The script's raw `retry_after` is negative exactly on the not-limited
branch. -/
theorem allowNScript_retry_sign (stored : Option StoredState)
    (ei bo ti now : ℚ) :
    ((allowNScript stored ei bo ti now).1.retry_after < 0 ↔
      (allowNScript stored ei bo ti now).1.limited = false) := by
  simp only [allowNScript]
  split
  · next hgt =>
    simp only [Bool.true_eq_false, iff_false, not_lt]
    linarith
  · next hng =>
    simp only [iff_true]
    norm_num

/-- A successful decode copies the script fields, converting `remaining`
to `Nat` and `retry_after` through `decodeRetryAfter`. -/
theorem decodeResult_some (res : ScriptResult) (r : LimitResult)
    (h : decodeResult res = some r) :
    r.limited = res.limited ∧ r.remaining = res.remaining.toNat ∧
    r.retry_after = decodeRetryAfter res.retry_after ∧
    r.reset_after = res.reset_after := by
  unfold decodeResult at h
  split at h
  · cases h
  · split at h
    · cases h
    · cases h
      exact ⟨rfl, rfl, rfl, rfl⟩

/-- Claim C5: every `Ok` result of `allow_n` (local fast path or store
round trip) has `retry_after` present if and only if `limited = true`, and
a non-negative integer `remaining`. -/
theorem limit_result_shape (cache : Option ℚ) (store : Option StoredState)
    (limit : Limit) (n : Nat) (env : CallEnv) (r : LimitResult)
    (c' : Option ℚ) (s' : Option StoredState)
    (h : allow_n cache store limit n env = (some r, c', s')) :
    (r.retry_after.isSome = true ↔ r.limited = true) ∧
    0 ≤ (r.remaining : ℤ) := by
  refine ⟨?_, Int.ofNat_nonneg _⟩
  simp only [allow_n] at h
  split at h
  · next r0 heq =>
    cases h
    have hloc : localCheck cache env.now (emissionInterval limit)
        (burstOffset limit) (tatIncrement limit n) = some r := by
      by_cases hrl : env.readLockOk = true
      · rwa [if_pos hrl] at heq
      · rw [if_neg hrl] at heq
        cases heq
    have hshape := localCheck_some _ _ _ _ _ _ hloc
    rw [hshape.1, hshape.2]
  · next heq =>
    split at h
    · cases h
    · next r1 hdec =>
      cases h
      obtain ⟨hlim, _, hretry, _⟩ := decodeResult_some _ _ hdec
      have hsign := allowNScript_retry_sign store (emissionInterval limit)
        (burstOffset limit) (tatIncrement limit n) env.storeNow
      rw [hlim, hretry]
      unfold decodeRetryAfter
      by_cases hlt : (allowNScript store (emissionInterval limit)
          (burstOffset limit) (tatIncrement limit n)
          env.storeNow).1.retry_after < 0
      · rw [if_pos hlt, hsign.mp hlt]
        simp
      · rw [if_neg hlt]
        simp only [Option.isSome_some, true_iff]
        cases hb : (allowNScript store (emissionInterval limit)
            (burstOffset limit) (tatIncrement limit n)
            env.storeNow).1.limited
        · exact absurd (hsign.mpr hb) hlt
        · rfl

/-- Witness for `limit_result_shape`: a store round trip on a fresh key
with limit (1, 1, 1), cost 1, both locks available, at time 0. -/
theorem limit_result_shape_witness :
    ((⟨false, 0, none, 1⟩ : LimitResult).retry_after.isSome = true ↔
      (⟨false, 0, none, 1⟩ : LimitResult).limited = true) ∧
    0 ≤ (((⟨false, 0, none, 1⟩ : LimitResult).remaining : Nat) : ℤ) :=
  limit_result_shape none none ⟨1, 1, 1⟩ 1 ⟨true, true, 0, 0⟩
    ⟨false, 0, none, 1⟩ (some 1) (some ⟨1, 1⟩)
    (by simp [allow_n, localCheck, allowNScript, storedTat, decodeResult,
          decodeRetryAfter, emissionInterval, burstOffset, tatIncrement]
        norm_num)

/-- Claim C7: whenever the fast path misses and the store round trip
decodes successfully, the cache entry is refreshed to
`now + reset_after` regardless of the decision, and the refresh is skipped
exactly when the write lock is unavailable. -/
theorem cache_refresh_on_round_trip (cache : Option ℚ)
    (store : Option StoredState) (limit : Limit) (n : Nat) (env : CallEnv)
    (r : LimitResult)
    (hfast : (if env.readLockOk then
        localCheck cache env.now (emissionInterval limit) (burstOffset limit)
          (tatIncrement limit n) else none) = none)
    (hdec : decodeResult (allowNScript store (emissionInterval limit)
        (burstOffset limit) (tatIncrement limit n) env.storeNow).1 = some r) :
    allow_n cache store limit n env =
      (some r,
       if env.writeLockOk then some (env.now + r.reset_after) else cache,
       (allowNScript store (emissionInterval limit) (burstOffset limit)
         (tatIncrement limit n) env.storeNow).2) := by
  simp only [allow_n, hfast, hdec]

/-- Witness for `cache_refresh_on_round_trip`: fresh key, limit (1, 1, 1),
cost 1, both locks available, at time 0: the cache is refreshed to
`0 + 1` even though the result is `limited = false`. -/
theorem cache_refresh_on_round_trip_witness :
    allow_n none none ⟨1, 1, 1⟩ 1 ⟨true, true, 0, 0⟩ =
      (some ⟨false, 0, none, 1⟩,
       if (true : Bool) then some ((0:ℚ) + (⟨false, 0, none, 1⟩ :
          LimitResult).reset_after) else none,
       (allowNScript none (emissionInterval ⟨1, 1, 1⟩)
         (burstOffset ⟨1, 1, 1⟩) (tatIncrement ⟨1, 1, 1⟩ 1) 0).2) :=
  cache_refresh_on_round_trip none none ⟨1, 1, 1⟩ 1 ⟨true, true, 0, 0⟩
    ⟨false, 0, none, 1⟩ (by simp [localCheck])
    (by simp [allowNScript, storedTat, decodeResult, decodeRetryAfter,
          emissionInterval, burstOffset, tatIncrement])

/-- Counterexample to claim C4 as stated: with limit (1, 1, 1) and cost 2
(`tat_increment = 2 > burst_offset = 1`), a cache entry whose expiry
instant 0 lies strictly in the past at call time 5 still produces a
locally-synthesized `limited = true` result (the cache and store are left
untouched and the store is never consulted). -/
theorem stale_cache_counterexample :
    allow_n (some 0) none ⟨1, 1, 1⟩ 2 ⟨true, true, 5, 5⟩ =
      (some ⟨true, 1, some 1, 0⟩, some 0, none) ∧ ¬ ((5:ℚ) < 0) := by
  constructor
  · simp [allow_n, localCheck, emissionInterval, burstOffset, tatIncrement]
    norm_num
  · norm_num

/-- Claim C4, amended: a locally-synthesized `limited = true` result
requires a cache entry to exist, and whenever
`tat_increment ≤ burst_offset` (cost at most burst) the entry's expiry
must additionally lie strictly in the future; but when
`tat_increment > burst_offset` a past-expiry entry can still cause a local
denial. -/
theorem local_denial_requires_entry (cache : Option ℚ) (now ei bo ti : ℚ)
    (r : LimitResult) (h : localCheck cache now ei bo ti = some r) :
    (∃ e, cache = some e) ∧
    (ti ≤ bo → ∀ e, cache = some e → now < e) := by
  cases cache with
  | none => simp [localCheck] at h
  | some reset_time =>
    refine ⟨⟨reset_time, rfl⟩, ?_⟩
    intro hti e he
    cases he
    simp only [localCheck] at h
    split at h
    · next hdiff =>
      by_contra hnow
      push_neg at hnow
      have hra : max (reset_time - now) 0 = 0 := by
        apply max_eq_right
        linarith
      rw [hra] at hdiff
      linarith
    · cases h

/-- Witness for `local_denial_requires_entry`: entry expiring at 10,
checked at time 0 with emission interval 1, burst offset 2, increment 1. -/
theorem local_denial_requires_entry_witness :
    (∃ e, (some (10:ℚ)) = some e) ∧
    ((1:ℚ) ≤ 2 → ∀ e, (some (10:ℚ)) = some e → (0:ℚ) < e) :=
  local_denial_requires_entry (some 10) 0 1 2 1 ⟨true, 0, some 9, 10⟩
    (by simp [localCheck]
        norm_num)


/-- Counterexample to claim C6 as stated: a subscription failure does not
terminate `start_event_sync` by returning the failure as an error value —
it panics (the `.unwrap()` on `pubsub.subscribe`, src/lib.rs line 124). -/
theorem listener_subscribe_panics :
    startEventSync (Except.ok ()) (Except.error ⟨"boom".toList⟩) [] [] =
      SyncOutcome.panicked ⟨"boom".toList⟩ := rfl

/-- Claim C6, amended: `start_event_sync` never returns `Ok`; a connection
failure and a message-receive failure are each returned to the caller as
that error value, a subscription failure panics instead of being returned,
and in the absence of failures the receive loop keeps running. -/
theorem listener_failure_reporting (e : RedisErr)
    (sub : Except RedisErr Unit) (events : List RecvEvent)
    (cache : CacheMap) :
    (startEventSync (Except.error e) sub events cache =
      SyncOutcome.errored e cache) ∧
    (startEventSync (Except.ok ()) (Except.error e) events cache =
      SyncOutcome.panicked e) ∧
    (∀ rest, eventLoop cache (RecvEvent.failure e :: rest) =
      SyncOutcome.errored e cache) ∧
    ((∀ ev ∈ events, ∀ e', ev ≠ RecvEvent.failure e') →
      ∃ c, startEventSync (Except.ok ()) (Except.ok ()) events cache =
        SyncOutcome.running c) := by
  refine ⟨rfl, rfl, fun rest => rfl, ?_⟩
  intro hok
  show ∃ c, eventLoop cache events = SyncOutcome.running c
  induction events generalizing cache with
  | nil => exact ⟨cache, rfl⟩
  | cons ev rest ih =>
    cases ev with
    | message p lk =>
      exact ih (processMessage cache p lk)
        (fun x hx e' => hok x (List.mem_cons_of_mem _ hx) e')
    | failure e' =>
      exact absurd rfl (hok (RecvEvent.failure e')
        (List.mem_cons_self _ _) e')

/-- Witness for `listener_failure_reporting`: a connection failure is
returned, and a processed reset message leaves the loop running. -/
theorem listener_failure_reporting_witness :
    (startEventSync (Except.error ⟨"down".toList⟩) (Except.ok ()) [] [] =
      SyncOutcome.errored ⟨"down".toList⟩ []) ∧
    (∃ c, startEventSync (Except.ok ()) (Except.ok ())
        [RecvEvent.message "reset:k".toList true] [] =
      SyncOutcome.running c) :=
  ⟨(listener_failure_reporting ⟨"down".toList⟩ (Except.ok ()) [] []).1,
   (listener_failure_reporting ⟨"down".toList⟩ (Except.ok ())
      [RecvEvent.message "reset:k".toList true] []).2.2.2
     (by intro ev hev e'
         simp at hev
         simp [hev])⟩

/-- Claim C8: `reset` deletes the effective key and then publishes exactly
the single message `"reset:" ++ effective_key` on the event channel; the
listener removes the entry for key `K` exactly when the write lock is
available and the message equals `"reset:" ++ K`, and any other message
leaves the cache unchanged. -/
theorem reset_wire_protocol (keyPre eventChannel key : List Char)
    (cache : CacheMap) (msg K : List Char) (e : ℚ) (lockOk : Bool) :
    limiterReset keyPre eventChannel key =
      [StoreCmd.del (effectiveKey keyPre key),
       StoreCmd.publish eventChannel
         (resetTag ++ effectiveKey keyPre key)] ∧
    ((K, e) ∈ processMessage cache msg lockOk ↔
      ((K, e) ∈ cache ∧ (lockOk = true → msg ≠ resetTag ++ K))) ∧
    (msg.take resetTag.length ≠ resetTag →
      processMessage cache msg lockOk = cache) := by
  refine ⟨rfl, ?_, ?_⟩
  · unfold processMessage
    by_cases htag : msg.take resetTag.length = resetTag
    · rw [if_pos htag]
      have hmsg : msg = resetTag ++ msg.drop resetTag.length := by
        conv_lhs => rw [← List.take_append_drop resetTag.length msg]
        rw [htag]
      cases lockOk with
      | false =>
        simp only [if_neg Bool.false_ne_true]
        constructor
        · intro hmem
          exact ⟨hmem, by intro hfalse; cases hfalse⟩
        · intro hmem
          exact hmem.1
      | true =>
        rw [if_pos rfl, List.mem_filter]
        constructor
        · rintro ⟨hmem, hne⟩
          refine ⟨hmem, fun _ hmsgK => ?_⟩
          have hK : K = msg.drop resetTag.length :=
            List.append_cancel_left ((hmsg ▸ hmsgK) : resetTag ++ _ = _).symm
          simp [hK] at hne
        · rintro ⟨hmem, hlk⟩
          refine ⟨hmem, ?_⟩
          have hne : msg ≠ resetTag ++ K := hlk rfl
          simp only [ne_eq, decide_not]
          have : ¬ K = msg.drop resetTag.length := by
            intro hK
            apply hne
            rw [hK]
            exact hmsg
          simpa using this
    · rw [if_neg htag]
      refine ⟨fun hmem => ⟨hmem, fun _ hmsgK => htag ?_⟩, fun hmem => hmem.1⟩
      rw [hmsgK]
      exact List.take_left resetTag K
  · intro htag
    unfold processMessage
    rw [if_neg htag]

/-- Witness for `reset_wire_protocol`: the default namespace, channel and
key from the crate, with the matching reset message and an entry for the
same key. -/
theorem reset_wire_protocol_witness :
    limiterReset "redis_rate:".toList "redis_rate_channel".toList
        "test".toList =
      [StoreCmd.del (effectiveKey "redis_rate:".toList "test".toList),
       StoreCmd.publish "redis_rate_channel".toList
         (resetTag ++ effectiveKey "redis_rate:".toList "test".toList)] ∧
    (("redis_rate:test".toList, (3:ℚ)) ∈
        processMessage [("redis_rate:test".toList, (3:ℚ))]
          "reset:redis_rate:test".toList true ↔
      (("redis_rate:test".toList, (3:ℚ)) ∈
          [("redis_rate:test".toList, (3:ℚ))] ∧
        (true = true →
          "reset:redis_rate:test".toList ≠
            resetTag ++ "redis_rate:test".toList))) ∧
    ("no".toList.take resetTag.length ≠ resetTag →
      processMessage [("redis_rate:test".toList, (3:ℚ))] "no".toList true =
        [("redis_rate:test".toList, (3:ℚ))]) :=
  ⟨(reset_wire_protocol "redis_rate:".toList "redis_rate_channel".toList
      "test".toList [("redis_rate:test".toList, (3:ℚ))]
      "reset:redis_rate:test".toList "redis_rate:test".toList 3 true).1,
   (reset_wire_protocol "redis_rate:".toList "redis_rate_channel".toList
      "test".toList [("redis_rate:test".toList, (3:ℚ))]
      "reset:redis_rate:test".toList "redis_rate:test".toList 3 true).2.1,
   (reset_wire_protocol "redis_rate:".toList "redis_rate_channel".toList
      "test".toList [("redis_rate:test".toList, (3:ℚ))]
      "no".toList "redis_rate:test".toList 3 true).2.2⟩

/-- The tat increment is non-negative (all `Limit` fields are naturals). -/
theorem tatIncrement_nonneg (limit : Limit) (n : Nat) :
    0 ≤ tatIncrement limit n := by
  unfold tatIncrement emissionInterval
  positivity

/-- The conservativeness invariant is monotone in the time bound. -/
theorem cacheBound_mono (t t' : ℚ) (st : Sys) (h : CacheBound t st)
    (hle : t ≤ t') : CacheBound t' st := by
  intro e he
  exact ⟨(h e he).1, fun hn => le_trans ((h e he).2 hn) hle⟩

/-- The script either leaves the store unchanged and reports
`reset_after = tat - now` (denied branch), or writes some `new_tat` that
is at least `tat` and at least `now` and reports
`reset_after = new_tat - now` (allowed branch). -/
theorem allowNScript_state (stored : Option StoredState) (ei bo ti now : ℚ)
    (hti : 0 ≤ ti) :
    ((allowNScript stored ei bo ti now).2 = stored ∧
      (allowNScript stored ei bo ti now).1.reset_after =
        storedTat stored now - now) ∨
    (∃ nt, (allowNScript stored ei bo ti now).2 = some ⟨nt, ⌈nt - now⌉⟩ ∧
      (allowNScript stored ei bo ti now).1.reset_after = nt - now ∧
      storedTat stored now ≤ nt ∧ now ≤ nt) := by
  simp only [allowNScript]
  split
  · exact Or.inl ⟨rfl, rfl⟩
  · refine Or.inr ⟨max (storedTat stored now) now + ti, rfl, rfl, ?_, ?_⟩
    · have := le_max_left (storedTat stored now) now
      linarith
    · have := le_max_right (storedTat stored now) now
      linarith

/-- After a store round trip that keeps the old cache entry, the invariant
holds at the call's time. -/
theorem cacheBound_kept (st : Sys) (t ei bo ti now : ℚ) (hti : 0 ≤ ti)
    (hb : CacheBound t st) (ht : t ≤ now) :
    CacheBound now ⟨st.cache, (allowNScript st.store ei bo ti now).2⟩ := by
  intro e he
  have he' : st.cache = some e := he
  have hbnow := cacheBound_mono t now st hb ht
  rcases allowNScript_state st.store ei bo ti now hti with
    ⟨hs, _⟩ | ⟨nt, hs, _, hnt1, hnt2⟩
  · rw [hs]
    exact hbnow e he'
  · rw [hs]
    constructor
    · intro s hsome
      cases hsome
      cases hsto : st.store with
      | none =>
        have : e ≤ now := (hbnow e he').2 hsto
        exact le_trans this hnt2
      | some s0 =>
        have h1 : e ≤ s0.tat := (hbnow e he').1 s0 hsto
        have h2 : storedTat st.store now = s0.tat := by rw [hsto]; rfl
        rw [h2] at hnt1
        exact le_trans h1 hnt1
    · intro hcontra
      cases hcontra

/-- After a store round trip that refreshes the cache entry to
`now + reset_after`, the invariant holds at the call's time. -/
theorem cacheBound_refreshed (st : Sys) (ei bo ti now : ℚ) (hti : 0 ≤ ti)
    (r : LimitResult)
    (hdec : decodeResult (allowNScript st.store ei bo ti now).1 = some r) :
    CacheBound now
      ⟨some (now + r.reset_after), (allowNScript st.store ei bo ti now).2⟩ := by
  intro e he
  have he' : now + r.reset_after = e := by
    have : some (now + r.reset_after) = some e := he
    cases this
    rfl
  obtain ⟨_, _, _, hra⟩ :=
    decodeResult_some (allowNScript st.store ei bo ti now).1 r hdec
  rcases allowNScript_state st.store ei bo ti now hti with
    ⟨hs, hra'⟩ | ⟨nt, hs, hra', hnt1, hnt2⟩
  · rw [hs]
    rw [hra'] at hra
    constructor
    · intro s hsome
      have htat : storedTat st.store now = s.tat := by rw [hsome]; rfl
      rw [← he', hra, htat]
      linarith
    · intro hnone
      have htat : storedTat st.store now = now := by rw [hnone]; rfl
      rw [← he', hra, htat]
      linarith
  · rw [hs]
    rw [hra'] at hra
    constructor
    · intro s hsome
      cases hsome
      rw [← he', hra]
      simp
    · intro hcontra
      cases hcontra

/-- One `allow_n` call preserves the invariant, advancing the time bound
to the call's time. -/
theorem cacheBound_step (st : Sys) (t : ℚ) (limit : Limit) (n : Nat)
    (env : CallEnv) (hb : CacheBound t st) (hck : env.now = env.storeNow)
    (ht : t ≤ env.now) :
    CacheBound env.now (stepOp st (Op.allowCall limit n env)) := by
  have hti := tatIncrement_nonneg limit n
  have ht' : t ≤ env.storeNow := hck ▸ ht
  simp only [stepOp, allow_n]
  split
  · exact cacheBound_mono t env.now st hb ht
  · split
    · exact hck ▸ cacheBound_kept st t (emissionInterval limit)
        (burstOffset limit) (tatIncrement limit n) env.storeNow hti hb ht'
    · next r hdec =>
      by_cases hw : env.writeLockOk = true
      · rw [if_pos hw, hck]
        exact cacheBound_refreshed st (emissionInterval limit)
          (burstOffset limit) (tatIncrement limit n) env.storeNow hti r hdec
      · rw [if_neg hw]
        exact hck ▸ cacheBound_kept st t (emissionInterval limit)
          (burstOffset limit) (tatIncrement limit n) env.storeNow hti hb ht'

/-- The invariant holds after any reset-free, chronologically consistent
trace. -/
theorem cacheBound_run (ops : List Op) (t : ℚ) (st : Sys)
    (h : ResetFreeChrono t ops) (hb : CacheBound t st) :
    CacheBound (endTime t ops) (ops.foldl stepOp st) := by
  induction ops generalizing t st with
  | nil => exact hb
  | cons op rest ih =>
    cases op with
    | allowCall limit n env =>
      obtain ⟨hck, ht, hrest⟩ := h
      exact ih env.now _ hrest (cacheBound_step st t limit n env hb hck ht)
    | resetCall ev => exact h.elim

/-- Claim C1, amended: over any reset-free sequence of `allow_n` calls
under one consistent clock, whenever the local cache synthesizes a
`limited = true` answer, running the quota script against the store at the
same moment would also return `limited = true`.  (With a `reset` in the
sequence whose invalidation has not yet evicted the local entry, the
property fails — see the counterexample.) -/
theorem local_denial_conservative (ops : List Op) (t0 : ℚ)
    (hops : ResetFreeChrono t0 ops) (limit : Limit) (n : Nat) (now : ℚ)
    (hnow : endTime t0 ops ≤ now) (r : LimitResult)
    (hl : localCheck (runOps ops).cache now (emissionInterval limit)
        (burstOffset limit) (tatIncrement limit n) = some r) :
    (allowNScript (runOps ops).store (emissionInterval limit)
        (burstOffset limit) (tatIncrement limit n) now).1.limited = true := by
  have hinit : CacheBound t0 (⟨none, none⟩ : Sys) := by
    intro e he
    cases he
  have hb0 := cacheBound_run ops t0 ⟨none, none⟩ hops hinit
  have hb := cacheBound_mono (endTime t0 ops) now (runOps ops) hb0 hnow
  cases hc : (runOps ops).cache with
  | none =>
    rw [hc] at hl
    simp [localCheck] at hl
  | some e =>
    rw [hc] at hl
    simp only [localCheck] at hl
    split at hl
    · next hdiff =>
      have hbe := hb e hc
      have hcond : max (storedTat (runOps ops).store now) now
          + tatIncrement limit n - burstOffset limit > now := by
        cases hsto : (runOps ops).store with
        | some s =>
          have h1 : e ≤ s.tat := (hbe.1) s hsto
          have h2 : storedTat (some s) now = s.tat := rfl
          rw [h2]
          have h3 : max (e - now) 0 ≤ max (s.tat - now) 0 :=
            max_le_max (by linarith) le_rfl
          have h4 : max s.tat now - now = max (s.tat - now) 0 := by
            rw [← max_sub_sub_right, sub_self]
          linarith [hdiff, h3, h4]
        | none =>
          have h1 : e ≤ now := hbe.2 hsto
          have h2 : storedTat (none : Option StoredState) now = now := rfl
          have h3 : max (e - now) 0 = 0 := max_eq_right (by linarith)
          rw [h3] at hdiff
          rw [h2, max_self]
          linarith
      simp only [allowNScript]
      rw [if_pos hcond]
    · cases hl

/-- Witness for `local_denial_conservative`: one allowed call with limit
(1, 1, 1) at time 0 caches expiry 1; an immediate local re-check denies,
and so would the script. -/
theorem local_denial_conservative_witness :
    (allowNScript
        (runOps [Op.allowCall ⟨1, 1, 1⟩ 1 ⟨true, true, 0, 0⟩]).store
        (emissionInterval ⟨1, 1, 1⟩) (burstOffset ⟨1, 1, 1⟩)
        (tatIncrement ⟨1, 1, 1⟩ 1) 0).1.limited = true :=
  local_denial_conservative [Op.allowCall ⟨1, 1, 1⟩ 1 ⟨true, true, 0, 0⟩] 0
    ⟨rfl, le_refl 0, trivial⟩ ⟨1, 1, 1⟩ 1 0 (le_of_eq rfl)
    ⟨true, 0, some 1, 1⟩
    (by norm_num [runOps, stepOp, allow_n, localCheck, allowNScript,
          storedTat, decodeResult, decodeRetryAfter, emissionInterval,
          burstOffset, tatIncrement])

/-- Counterexample to claim C1 as stated: the sequence
allow(cost 1), allow(cost 1), reset — with the reset's broadcast not yet
processed — leaves a stale local entry (expiry 2) over an empty store.
At time 1/2 the local cache synthesizes `limited = true`, while the quota
script against the store at that same moment returns `limited = false`
with `remaining = 1 ≠ 0`. -/
theorem conservative_denial_counterexample :
    Option.map LimitResult.limited
      (localCheck
        (runOps [Op.allowCall ⟨1, 2, 1⟩ 1 ⟨true, true, 0, 0⟩,
          Op.allowCall ⟨1, 2, 1⟩ 1 ⟨true, true, 0, 0⟩,
          Op.resetCall false]).cache
        (1/2) (emissionInterval ⟨1, 2, 1⟩) (burstOffset ⟨1, 2, 1⟩)
        (tatIncrement ⟨1, 2, 1⟩ 1)) = some true ∧
    (allowNScript
        (runOps [Op.allowCall ⟨1, 2, 1⟩ 1 ⟨true, true, 0, 0⟩,
          Op.allowCall ⟨1, 2, 1⟩ 1 ⟨true, true, 0, 0⟩,
          Op.resetCall false]).store
        (emissionInterval ⟨1, 2, 1⟩) (burstOffset ⟨1, 2, 1⟩)
        (tatIncrement ⟨1, 2, 1⟩ 1) (1/2)).1 = ⟨false, 1, -1, 1⟩ := by
  have hrun : runOps [Op.allowCall ⟨1, 2, 1⟩ 1 ⟨true, true, 0, 0⟩,
      Op.allowCall ⟨1, 2, 1⟩ 1 ⟨true, true, 0, 0⟩,
      Op.resetCall false] = ⟨some 2, none⟩ := by
    norm_num [runOps, stepOp, allow_n, localCheck, allowNScript, storedTat,
      decodeResult, decodeRetryAfter, emissionInterval, burstOffset,
      tatIncrement]
  rw [hrun]
  constructor
  · norm_num [localCheck, emissionInterval, burstOffset, tatIncrement]
  · norm_num [allowNScript, storedTat, emissionInterval, burstOffset,
      tatIncrement]

end RedisRate
